import Mathlib

/-!
Verification of the AES-256 engine in `aes256.py` (class `AES256`).

Bytes are modelled as `Nat` (Python integers), byte strings as `List Nat`.
Each definition mirrors one method of the source class; Python exceptions
become `Except AESError` results.
-/

namespace AES256V

/-- The error conditions the engine can raise (`ValueError` in the source,
named per the error taxonomy used by the documentation). -/
inductive AESError where
  | invalidKeyLength
  | invalidBlockLength
  | invalidPadding
  | indexError
deriving DecidableEq, Repr

/-- The fixed 256-entry substitution table `AES256.SBOX`. -/
def SBOX : List Nat := [
  0x63, 0x7c, 0x77, 0x7b, 0xf2, 0x6b, 0x6f, 0xc5, 0x30, 0x01, 0x67, 0x2b, 0xfe, 0xd7, 0xab, 0x76,
  0xca, 0x82, 0xc9, 0x7d, 0xfa, 0x59, 0x47, 0xf0, 0xad, 0xd4, 0xa2, 0xaf, 0x9c, 0xa4, 0x72, 0xc0,
  0xb7, 0xfd, 0x93, 0x26, 0x36, 0x3f, 0xf7, 0xcc, 0x34, 0xa5, 0xe5, 0xf1, 0x71, 0xd8, 0x31, 0x15,
  0x04, 0xc7, 0x23, 0xc3, 0x18, 0x96, 0x05, 0x9a, 0x07, 0x12, 0x80, 0xe2, 0xeb, 0x27, 0xb2, 0x75,
  0x09, 0x83, 0x2c, 0x1a, 0x1b, 0x6e, 0x5a, 0xa0, 0x52, 0x3b, 0xd6, 0xb3, 0x29, 0xe3, 0x2f, 0x84,
  0x53, 0xd1, 0x00, 0xed, 0x20, 0xfc, 0xb1, 0x5b, 0x6a, 0xcb, 0xbe, 0x39, 0x4a, 0x4c, 0x58, 0xcf,
  0xd0, 0xef, 0xaa, 0xfb, 0x43, 0x4d, 0x33, 0x85, 0x45, 0xf9, 0x02, 0x7f, 0x50, 0x3c, 0x9f, 0xa8,
  0x51, 0xa3, 0x40, 0x8f, 0x92, 0x9d, 0x38, 0xf5, 0xbc, 0xb6, 0xda, 0x21, 0x10, 0xff, 0xf3, 0xd2,
  0xcd, 0x0c, 0x13, 0xec, 0x5f, 0x97, 0x44, 0x17, 0xc4, 0xa7, 0x7e, 0x3d, 0x64, 0x5d, 0x19, 0x73,
  0x60, 0x81, 0x4f, 0xdc, 0x22, 0x2a, 0x90, 0x88, 0x46, 0xee, 0xb8, 0x14, 0xde, 0x5e, 0x0b, 0xdb,
  0xe0, 0x32, 0x3a, 0x0a, 0x49, 0x06, 0x24, 0x5c, 0xc2, 0xd3, 0xac, 0x62, 0x91, 0x95, 0xe4, 0x79,
  0xe7, 0xc8, 0x37, 0x6d, 0x8d, 0xd5, 0x4e, 0xa9, 0x6c, 0x56, 0xf4, 0xea, 0x65, 0x7a, 0xae, 0x08,
  0xba, 0x78, 0x25, 0x2e, 0x1c, 0xa6, 0xb4, 0xc6, 0xe8, 0xdd, 0x74, 0x1f, 0x4b, 0xbd, 0x8b, 0x8a,
  0x70, 0x3e, 0xb5, 0x66, 0x48, 0x03, 0xf6, 0x0e, 0x61, 0x35, 0x57, 0xb9, 0x86, 0xc1, 0x1d, 0x9e,
  0xe1, 0xf8, 0x98, 0x11, 0x69, 0xd9, 0x8e, 0x94, 0x9b, 0x1e, 0x87, 0xe9, 0xce, 0x55, 0x28, 0xdf,
  0x8c, 0xa1, 0x89, 0x0d, 0xbf, 0xe6, 0x42, 0x68, 0x41, 0x99, 0x2d, 0x0f, 0xb0, 0x54, 0xbb, 0x16]

/-- The round-constant lookup table `AES256.RCON`. -/
def RCON : List Nat := [0x00, 0x01, 0x02, 0x04, 0x08, 0x10, 0x20, 0x40, 0x80, 0x1b, 0x36]

/-- Byte-wise XOR of two byte strings, truncated to the shorter one
(Python `bytes(a ^ b for a, b in zip(x, y))`). -/
def zipXor (x y : List Nat) : List Nat := List.zipWith (· ^^^ ·) x y

/-- `AES256._sub_word`: substitute each byte of a word through the S-box. -/
def subWord (w : List Nat) : List Nat := w.map (fun b => SBOX.getD b 0)

/-- `AES256._rot_word`: `word[1:] + word[:1]`. -/
def rotWord (w : List Nat) : List Nat := w.drop 1 ++ w.take 1

/-- One iteration of the key-expansion loop of `AES256._expand_key`, at word
index `i`: read `temp = expanded[-4:]`, transform it according to
`i % 8`, and append `temp XOR expanded[-32:-28]`. -/
def expandStep (exp : List Nat) (i : Nat) : List Nat :=
  let temp := exp.drop (exp.length - 4)
  let temp :=
    if i % 8 = 0 then
      let t := subWord (rotWord temp)
      t.set 0 ((t.getD 0 0) ^^^ RCON.getD (i / 8) 0)
    else if i % 8 = 4 then subWord temp
    else temp
  exp ++ zipXor temp ((exp.drop (exp.length - 32)).take 4)

/-- `AES256._expand_key`: starting from the 32 key bytes, run the expansion
loop for word indices `8, 9, ..., 59`. -/
def expand_key (key : List Nat) : List Nat :=
  (List.range' 8 52).foldl expandStep key

/-- The 8-iteration loop body of `AES256._gf_mult`, with explicit fuel.
Mirrors the Python exactly: the accumulator `p` is XORed with the raw,
untruncated working value `a`; `a` is left-shifted (and conditionally
reduced by `0x1b`) without being masked to 8 bits. -/
def gfLoop : Nat → Nat → Nat → Nat → Nat
  | 0, _, _, p => p
  | n + 1, a, b, p =>
    let p' := if b &&& 1 ≠ 0 then p ^^^ a else p
    let a' := if a &&& 0x80 ≠ 0 then (a <<< 1) ^^^ 0x1b else a <<< 1
    gfLoop n a' (b >>> 1) p'

/-- `AES256._gf_mult`: run the loop 8 times and mask the final accumulator. -/
def gf_mult (a b : Nat) : Nat := gfLoop 8 a b 0 &&& 0xff

/-- `AES256._add_round_key`: byte-wise XOR of state and round key. -/
def add_round_key (state round_key : List Nat) : List Nat := zipXor state round_key

/-- `AES256._sub_bytes`: substitute every state byte through the S-box. -/
def sub_bytes (state : List Nat) : List Nat := state.map (fun b => SBOX.getD b 0)

/-- `AES256._shift_rows`: the simultaneous assignment
`s[1],s[5],s[9],s[13] = s[5],s[9],s[13],s[1]` (and likewise for rows 2, 3)
written out as the resulting 16-byte permutation. -/
def shift_rows (s : List Nat) : List Nat :=
  [s.getD 0 0, s.getD 5 0, s.getD 10 0, s.getD 15 0,
   s.getD 4 0, s.getD 9 0, s.getD 14 0, s.getD 3 0,
   s.getD 8 0, s.getD 13 0, s.getD 2 0, s.getD 7 0,
   s.getD 12 0, s.getD 1 0, s.getD 6 0, s.getD 11 0]

/-- One column transform of `AES256._mix_columns`, applied to the four bytes
`a, b, c, d` read from the state before any of them is overwritten. -/
def mixColumn (a b c d : Nat) : List Nat :=
  [gf_mult 2 a ^^^ gf_mult 3 b ^^^ c ^^^ d,
   a ^^^ gf_mult 2 b ^^^ gf_mult 3 c ^^^ d,
   a ^^^ b ^^^ gf_mult 2 c ^^^ gf_mult 3 d,
   gf_mult 3 a ^^^ b ^^^ c ^^^ gf_mult 2 d]

/-- `AES256._mix_columns`: the loop over column offsets `0, 4, 8, 12`. -/
def mix_columns (s : List Nat) : List Nat :=
  mixColumn (s.getD 0 0) (s.getD 1 0) (s.getD 2 0) (s.getD 3 0) ++
  mixColumn (s.getD 4 0) (s.getD 5 0) (s.getD 6 0) (s.getD 7 0) ++
  mixColumn (s.getD 8 0) (s.getD 9 0) (s.getD 10 0) (s.getD 11 0) ++
  mixColumn (s.getD 12 0) (s.getD 13 0) (s.getD 14 0) (s.getD 15 0)

/-- The body of the `for round in range(1, self.rounds)` loop of
`AES256.encrypt`: SubBytes, ShiftRows, MixColumns, AddRoundKey with the
schedule slice `key_schedule[round*16:(round+1)*16]`. -/
def roundStep (ks s : List Nat) (r : Nat) : List Nat :=
  add_round_key (mix_columns (shift_rows (sub_bytes s))) ((ks.drop (r * 16)).take 16)

/-- The full state pipeline of `AES256.encrypt` (after its length check),
with `self.rounds = 14`. -/
def encryptBlock (ks pt : List Nat) : List Nat :=
  let s0 := add_round_key pt (ks.take 16)
  let sf := (List.range' 1 13).foldl (roundStep ks) s0
  add_round_key (shift_rows (sub_bytes sf)) ((ks.drop (14 * 16)).take 16)

/-- The engine object: the fields set by `AES256.__init__`. -/
structure AES256 where
  key : List Nat
  rounds : Nat
  block_size : Nat
  key_schedule : List Nat
deriving DecidableEq, Repr

/-- `AES256.__init__`: reject any key that is not exactly 32 bytes, otherwise
build the engine and compute the key schedule once. -/
def mkAES (key : List Nat) : Except AESError AES256 :=
  if key.length = 32 then Except.ok ⟨key, 14, 16, expand_key key⟩
  else Except.error AESError.invalidKeyLength

/-- `AES256.encrypt`: reject any plaintext that is not exactly 16 bytes,
otherwise run the block pipeline on the stored schedule. -/
def AES256.encrypt (a : AES256) (pt : List Nat) : Except AESError (List Nat) :=
  if pt.length = 16 then Except.ok (encryptBlock a.key_schedule pt)
  else Except.error AESError.invalidBlockLength

/-- `AES256.pad`: append `n = 16 - len(data) % 16` bytes, each equal to `n`
(`self.block_size = 16`). -/
def pad (data : List Nat) : List Nat :=
  let n := 16 - data.length % 16
  data ++ List.replicate n n

/-- Python slice `data[-n:]`: for `n = 0` this is `data[0:]`, the whole
buffer; for `n ≥ 1` it is the last `min n (len data)` bytes. -/
def pySliceLast (data : List Nat) (n : Nat) : List Nat :=
  if n = 0 then data else data.drop (data.length - n)

/-- Python slice `data[:-n]`: for `n = 0` this is `data[:0]`, the empty
buffer; for `n ≥ 1` it drops the last `min n (len data)` bytes. -/
def pyDropLast (data : List Nat) (n : Nat) : List Nat :=
  if n = 0 then [] else data.take (data.length - n)

/-- `AES256.unpad`: read `n = data[-1]` (an `IndexError` on an empty buffer),
fail with invalid padding when `n > 16` or some byte of `data[-n:]` differs
from `n`, otherwise return `data[:-n]`. -/
def unpad (data : List Nat) : Except AESError (List Nat) :=
  match data.getLast? with
  | none => Except.error AESError.indexError
  | some n =>
    if 16 < n ∨ ¬ (pySliceLast data n).all (· == n) then
      Except.error AESError.invalidPadding
    else Except.ok (pyDropLast data n)

/-- The generator loop of `AES256.encrypt_full`: encrypt each consecutive
16-byte slice through `AES256.encrypt` and concatenate the results,
propagating the first error. -/
def chunksEncrypt (a : AES256) (data : List Nat) : Except AESError (List Nat) :=
  if h : data = [] then Except.ok []
  else
    match a.encrypt (data.take 16) with
    | Except.error e => Except.error e
    | Except.ok c =>
      match chunksEncrypt a (data.drop 16) with
      | Except.error e => Except.error e
      | Except.ok rest => Except.ok (c ++ rest)
termination_by data.length
decreasing_by
  simp only [List.length_drop]
  have : 0 < data.length := List.length_pos.mpr h
  omega

/-- `AES256.encrypt_full`: pad, then encrypt block by block. -/
def AES256.encrypt_full (a : AES256) (pt : List Nat) : Except AESError (List Nat) :=
  chunksEncrypt a (pad pt)

/-! ### Reference definitions taken from the specification's wording

These are deliberately written from the documented description of the
algorithm (not from the source) and are compared with the source-derived
definitions above. -/

/-- Reference GF(2^8) loop body: identical to `gfLoop` except that the
working value `a` is masked to 8 bits after every shift, as in the textbook
shift-and-reduce multiplier. -/
def gfLoopRef : Nat → Nat → Nat → Nat → Nat
  | 0, _, _, p => p
  | n + 1, a, b, p =>
    let p' := if b &&& 1 ≠ 0 then p ^^^ a else p
    let a' := (if a &&& 0x80 ≠ 0 then (a <<< 1) ^^^ 0x1b else a <<< 1) &&& 0xff
    gfLoopRef n a' (b >>> 1) p'

/-- Reference GF(2^8) multiplier (8 masked shift-and-reduce steps). -/
def gf_mult_ref (a b : Nat) : Nat := gfLoopRef 8 a b 0

/-- Row `r` of the column-major 4×4 state: bytes `r, r+4, r+8, r+12`. -/
def rowOf (s : List Nat) (r : Nat) : List Nat :=
  [s.getD r 0, s.getD (r + 4) 0, s.getD (r + 8) 0, s.getD (r + 12) 0]

/-- Cyclic left rotation of a list by `r` positions (`r ≤ length`). -/
def rotl (xs : List Nat) (r : Nat) : List Nat := xs.drop r ++ xs.take r

/-- Reassemble a column-major 16-byte state from its four rows. -/
def colsToState (r0 r1 r2 r3 : List Nat) : List Nat :=
  [r0.getD 0 0, r1.getD 0 0, r2.getD 0 0, r3.getD 0 0,
   r0.getD 1 0, r1.getD 1 0, r2.getD 1 0, r3.getD 1 0,
   r0.getD 2 0, r1.getD 2 0, r2.getD 2 0, r3.getD 2 0,
   r0.getD 3 0, r1.getD 3 0, r2.getD 3 0, r3.getD 3 0]

/-- ShiftRows as described: row `r` of the 4×4 matrix cyclically rotated
left by `r` positions, row 0 unchanged. -/
def shiftRowsDescr (s : List Nat) : List Nat :=
  colsToState (rotl (rowOf s 0) 0) (rotl (rowOf s 1) 1)
    (rotl (rowOf s 2) 2) (rotl (rowOf s 3) 3)

/-- One MixColumns column as described: `[a,b,c,d]` becomes
`[2a⊕3b⊕c⊕d, a⊕2b⊕3c⊕d, a⊕b⊕2c⊕3d, 3a⊕b⊕c⊕2d]` over GF(2^8). -/
def mixColDescr (col : List Nat) : List Nat :=
  match col with
  | [a, b, c, d] =>
    [gf_mult 2 a ^^^ gf_mult 3 b ^^^ c ^^^ d,
     a ^^^ gf_mult 2 b ^^^ gf_mult 3 c ^^^ d,
     a ^^^ b ^^^ gf_mult 2 c ^^^ gf_mult 3 d,
     gf_mult 3 a ^^^ b ^^^ c ^^^ gf_mult 2 d]
  | _ => col

/-- MixColumns as described: each of the four columns transformed by
`mixColDescr`. -/
def mixColumnsDescr (s : List Nat) : List Nat :=
  mixColDescr (s.take 4) ++ mixColDescr ((s.drop 4).take 4) ++
  mixColDescr ((s.drop 8).take 4) ++ mixColDescr ((s.drop 12).take 4)

/-- The documented key-schedule recurrence, word by word: words 0..7 are the
raw key bytes; for `i ≥ 8`, `word i = word (i-8) XOR temp` where `temp` is
`word (i-1)` transformed by `SubWord (RotWord ·) XOR (Rcon[i/8],0,0,0)`
when `i % 8 = 0`, by `SubWord` alone when `i % 8 = 4`, and unchanged
otherwise. -/
def wordSpec (key : List Nat) (i : Nat) : List Nat :=
  if i < 8 then (key.drop (4 * i)).take 4
  else
    let t := wordSpec key (i - 1)
    let t' :=
      if i % 8 = 0 then zipXor (subWord (rotWord t)) [RCON.getD (i / 8) 0, 0, 0, 0]
      else if i % 8 = 4 then subWord t
      else t
    zipXor (wordSpec key (i - 8)) t'
termination_by i
decreasing_by all_goals omega

/-- Concatenation of schedule words `0, 1, ..., n-1`. -/
def flatWords (key : List Nat) : Nat → List Nat
  | 0 => []
  | n + 1 => flatWords key n ++ wordSpec key n

/-- The 4-byte word at word index `i` of a byte string. -/
def sliceWord (s : List Nat) (i : Nat) : List Nat := (s.drop (4 * i)).take 4

/-- The 16-byte block at block index `k` of a byte string. -/
def sliceBlock (s : List Nat) (k : Nat) : List Nat := (s.drop (16 * k)).take 16

/-! ### Concrete test vectors -/

/-- The 31-byte key whose hex the specification states for the
known-answer test: `000102…1e` (the final `1f` byte of the FIPS-197
AES-256 key is missing). -/
def keyKAT31 : List Nat :=
  [0x00, 0x01, 0x02, 0x03, 0x04, 0x05, 0x06, 0x07,
   0x08, 0x09, 0x0a, 0x0b, 0x0c, 0x0d, 0x0e, 0x0f,
   0x10, 0x11, 0x12, 0x13, 0x14, 0x15, 0x16, 0x17,
   0x18, 0x19, 0x1a, 0x1b, 0x1c, 0x1d, 0x1e]

/-- The 32-byte FIPS-197 AES-256 key `000102…1f`. -/
def keyFIPS : List Nat :=
  [0x00, 0x01, 0x02, 0x03, 0x04, 0x05, 0x06, 0x07,
   0x08, 0x09, 0x0a, 0x0b, 0x0c, 0x0d, 0x0e, 0x0f,
   0x10, 0x11, 0x12, 0x13, 0x14, 0x15, 0x16, 0x17,
   0x18, 0x19, 0x1a, 0x1b, 0x1c, 0x1d, 0x1e, 0x1f]

/-- The FIPS-197 plaintext block `00112233445566778899aabbccddeeff`. -/
def ptFIPS : List Nat :=
  [0x00, 0x11, 0x22, 0x33, 0x44, 0x55, 0x66, 0x77,
   0x88, 0x99, 0xaa, 0xbb, 0xcc, 0xdd, 0xee, 0xff]

/-- The FIPS-197 AES-256 ciphertext block `8ea2b7ca516745bfeafc49904b496089`. -/
def ctFIPS : List Nat :=
  [0x8e, 0xa2, 0xb7, 0xca, 0x51, 0x67, 0x45, 0xbf,
   0xea, 0xfc, 0x49, 0x90, 0x4b, 0x49, 0x60, 0x89]

/-! ### GF multiplier lemmas -/

theorem and255_eq_mod (x : Nat) : x &&& 255 = x % 256 := by
  apply Nat.eq_of_testBit_eq
  intro i
  rw [Nat.testBit_and, show (256 : Nat) = 2 ^ 8 by norm_num, Nat.testBit_mod_two_pow,
    show (255 : Nat) = 2 ^ 8 - 1 by norm_num, Nat.testBit_two_pow_sub_one, Bool.and_comm]

theorem xor_mod256 (x y : Nat) : (x ^^^ y) % 256 = x % 256 ^^^ y % 256 := by
  apply Nat.eq_of_testBit_eq
  intro i
  rw [show (256 : Nat) = 2 ^ 8 by norm_num, Nat.testBit_mod_two_pow, Nat.testBit_xor,
    Nat.testBit_xor, Nat.testBit_mod_two_pow, Nat.testBit_mod_two_pow]
  cases hd : decide (i < 8) <;> simp [hd]

theorem and128_mod (x : Nat) : x &&& 128 = (x % 256) &&& 128 := by
  apply Nat.eq_of_testBit_eq
  intro i
  rw [Nat.testBit_and, Nat.testBit_and, show (256 : Nat) = 2 ^ 8 by norm_num,
    Nat.testBit_mod_two_pow, show (128 : Nat) = 2 ^ 7 by norm_num, Nat.testBit_two_pow]
  by_cases h : 7 = i <;> simp [h]
  omega

theorem shiftLeft_one_mod256 {x y : Nat} (h : x % 256 = y % 256) :
    (x <<< 1) % 256 = (y <<< 1) % 256 := by
  rw [Nat.shiftLeft_eq, Nat.shiftLeft_eq, pow_one, Nat.mul_mod, h, ← Nat.mul_mod]

theorem gfLoop_mod (n : Nat) : ∀ a₁ a₂ b p₁ p₂, a₁ % 256 = a₂ % 256 → p₁ % 256 = p₂ % 256 →
    gfLoop n a₁ b p₁ % 256 = gfLoopRef n a₂ b p₂ % 256 := by
  induction n with
  | zero => intro _ _ _ _ _ _ hp; simpa [gfLoop, gfLoopRef]
  | succ n ih =>
    intro a₁ a₂ b p₁ p₂ ha hp
    simp only [gfLoop, gfLoopRef]
    have hbit : a₁ &&& 128 = a₂ &&& 128 := by rw [and128_mod a₁, and128_mod a₂, ha]
    apply ih
    · rw [and255_eq_mod, Nat.mod_mod_of_dvd _ (dvd_refl 256)]
      by_cases h80 : a₂ &&& 128 ≠ 0
      · rw [if_pos (hbit ▸ h80), if_pos h80, xor_mod256, xor_mod256,
          shiftLeft_one_mod256 ha]
      · rw [if_neg (hbit ▸ h80), if_neg h80]
        exact shiftLeft_one_mod256 ha
    · by_cases hb1 : b &&& 1 ≠ 0
      · rw [if_pos hb1, if_pos hb1, xor_mod256, xor_mod256, ha, hp]
      · rwa [if_neg hb1, if_neg hb1]

theorem gfLoopRef_lt (n : Nat) : ∀ a b p, a < 256 → p < 256 → gfLoopRef n a b p < 256 := by
  induction n with
  | zero => intro a b p _ hp; simpa [gfLoopRef]
  | succ n ih =>
    intro a b p ha hp
    simp only [gfLoopRef]
    apply ih
    · rw [and255_eq_mod]
      exact Nat.mod_lt _ (by norm_num)
    · by_cases hb1 : b &&& 1 ≠ 0
      · rw [if_pos hb1, show (256 : Nat) = 2 ^ 8 by norm_num] at *
        exact Nat.xor_lt_two_pow hp ha
      · rwa [if_neg hb1]

/-- C9: for byte inputs, the source GF(2^8) multiplier — which never masks
the working value inside its 8-step loop, only the final accumulator —
returns exactly the byte computed by the reference multiplier that masks
the working value after every shift. -/
theorem gf_mult_untruncated_matches (a b : Nat) (ha : a < 256) (hb : b < 256) :
    gf_mult a b = gf_mult_ref a b := by
  unfold gf_mult gf_mult_ref
  rw [and255_eq_mod, gfLoop_mod 8 a a b 0 0 rfl rfl]
  exact Nat.mod_eq_of_lt (gfLoopRef_lt 8 a b 0 ha (by norm_num))

/-! ### Key-schedule lemmas -/

theorem subWord_length (w : List Nat) : (subWord w).length = w.length := by
  simp [subWord]

theorem rotWord_length (w : List Nat) : (rotWord w).length = w.length := by
  simp [rotWord]; omega

theorem zipXor_length (x y : List Nat) : (zipXor x y).length = min x.length y.length := by
  simp [zipXor]

theorem zipXor_comm (x y : List Nat) : zipXor x y = zipXor y x :=
  List.zipWith_comm_of_comm _ Nat.xor_comm x y

theorem wordSpec_lt8 (key : List Nat) (i : Nat) (hi : i < 8) :
    wordSpec key i = (key.drop (4 * i)).take 4 := by
  unfold wordSpec
  rw [if_pos hi]

theorem wordSpec_ge8 (key : List Nat) (i : Nat) (hi : 8 ≤ i) :
    wordSpec key i = zipXor (wordSpec key (i - 8))
      (if i % 8 = 0 then
        zipXor (subWord (rotWord (wordSpec key (i - 1)))) [RCON.getD (i / 8) 0, 0, 0, 0]
      else if i % 8 = 4 then subWord (wordSpec key (i - 1))
      else wordSpec key (i - 1)) := by
  conv_lhs => unfold wordSpec
  rw [if_neg (by omega : ¬ i < 8)]

theorem wordSpec_length (key : List Nat) (hk : key.length = 32) :
    ∀ i, (wordSpec key i).length = 4 := by
  intro i
  induction i using Nat.strong_induction_on with
  | _ i ih =>
    by_cases h8 : i < 8
    · rw [wordSpec_lt8 key i h8]
      simp only [List.length_take, List.length_drop, hk]
      omega
    · rw [wordSpec_ge8 key i (by omega)]
      have h1 := ih (i - 1) (by omega)
      have h8' := ih (i - 8) (by omega)
      by_cases h0 : i % 8 = 0
      · simp [h0, zipXor_length, subWord_length, rotWord_length, h1, h8']
      · by_cases h4 : i % 8 = 4
        · simp [h0, h4, zipXor_length, subWord_length, h1, h8']
        · simp [h0, h4, zipXor_length, h1, h8']

theorem flatWords_length (key : List Nat) (hk : key.length = 32) :
    ∀ n, (flatWords key n).length = 4 * n := by
  intro n
  induction n with
  | zero => rfl
  | succ n ih =>
    simp only [flatWords, List.length_append, ih, wordSpec_length key hk]
    omega

theorem flatWords_take (key : List Nat) (hk : key.length = 32) :
    ∀ n m, m ≤ n → (flatWords key n).take (4 * m) = flatWords key m := by
  intro n
  induction n with
  | zero =>
    intro m hm
    have hm0 : m = 0 := by omega
    subst hm0
    rfl
  | succ n ih =>
    intro m hm
    by_cases hmn : m ≤ n
    · show (flatWords key n ++ wordSpec key n).take (4 * m) = _
      rw [List.take_append_of_le_length (by rw [flatWords_length key hk]; omega)]
      exact ih m hmn
    · have hm1 : m = n + 1 := by omega
      subst hm1
      rw [show 4 * (n + 1) = (flatWords key (n + 1)).length from
        (flatWords_length key hk (n + 1)).symm]
      exact List.take_length _

theorem flatWords_word (key : List Nat) (hk : key.length = 32) :
    ∀ n m, m < n → sliceWord (flatWords key n) m = wordSpec key m := by
  intro n
  induction n with
  | zero => intro m hm; omega
  | succ n ih =>
    intro m hm
    by_cases hmn : m < n
    · show ((flatWords key n ++ wordSpec key n).drop (4 * m)).take 4 = _
      rw [List.drop_append_of_le_length (by rw [flatWords_length key hk]; omega)]
      rw [List.take_append_of_le_length (by
        simp only [List.length_drop, flatWords_length key hk]; omega)]
      exact ih m hmn
    · have hm1 : m = n := by omega
      rw [hm1]
      show ((flatWords key n ++ wordSpec key n).drop (4 * n)).take 4 = wordSpec key n
      rw [List.drop_left' (flatWords_length key hk n)]
      exact List.take_of_length_le (by rw [wordSpec_length key hk])

theorem flatWords_eight (key : List Nat) (hk : key.length = 32) :
    flatWords key 8 = key := by
  have aux : ∀ n, 4 * n ≤ 32 → flatWords key n = key.take (4 * n) := by
    intro n
    induction n with
    | zero => intro _; rfl
    | succ n ih =>
      intro hn
      show flatWords key n ++ wordSpec key n = _
      rw [ih (by omega), wordSpec_lt8 key n (by omega),
        show 4 * (n + 1) = 4 * n + 4 by omega, List.take_add]
  rw [aux 8 (by omega), show 4 * 8 = key.length by omega]
  exact List.take_length key

theorem set_zero_eq_zipXor (t : List Nat) (ht : t.length = 4) (r : Nat) :
    t.set 0 (t.getD 0 0 ^^^ r) = zipXor t [r, 0, 0, 0] := by
  rcases t with _ | ⟨a, _ | ⟨b, _ | ⟨c, _ | ⟨d, _ | ⟨e, t⟩⟩⟩⟩⟩ <;>
    simp_all [zipXor]

theorem expandStep_flat (key : List Nat) (hk : key.length = 32) (i : Nat) (hi : 8 ≤ i) :
    expandStep (flatWords key i) i = flatWords key (i + 1) := by
  have hlen : (flatWords key i).length = 4 * i := flatWords_length key hk i
  have htemp : (flatWords key i).drop ((flatWords key i).length - 4) = wordSpec key (i - 1) := by
    have hdl : ((flatWords key i).drop (4 * (i - 1))).length = 4 := by
      simp only [List.length_drop, hlen]; omega
    have hsl : (flatWords key i).drop ((flatWords key i).length - 4)
        = sliceWord (flatWords key i) (i - 1) := by
      unfold sliceWord
      rw [List.take_of_length_le (by rw [hdl]), hlen,
        show 4 * i - 4 = 4 * (i - 1) by omega]
    rw [hsl]
    exact flatWords_word key hk i (i - 1) (by omega)
  have hslice : ((flatWords key i).drop ((flatWords key i).length - 32)).take 4
      = wordSpec key (i - 8) := by
    have hsl : ((flatWords key i).drop ((flatWords key i).length - 32)).take 4
        = sliceWord (flatWords key i) (i - 8) := by
      unfold sliceWord
      rw [hlen, show 4 * i - 32 = 4 * (i - 8) by omega]
    rw [hsl]
    exact flatWords_word key hk i (i - 8) (by omega)
  have hrhs : flatWords key (i + 1) = flatWords key i ++ wordSpec key i := rfl
  rw [hrhs]
  simp only [expandStep]
  rw [htemp, hslice, wordSpec_ge8 key i hi]
  by_cases h0 : i % 8 = 0
  · rw [if_pos h0, if_pos h0,
      set_zero_eq_zipXor _ (by rw [subWord_length, rotWord_length, wordSpec_length key hk]) _]
    congr 1
    exact zipXor_comm _ _
  · by_cases h4 : i % 8 = 4
    · rw [if_neg h0, if_neg h0, if_pos h4]
      congr 1
      exact zipXor_comm _ _
    · rw [if_neg h0, if_neg h0, if_neg h4]
      congr 1
      exact zipXor_comm _ _

theorem expand_key_eq_flatWords (key : List Nat) (hk : key.length = 32) :
    expand_key key = flatWords key 60 := by
  have main : ∀ k, k ≤ 52 → (List.range' 8 k).foldl expandStep key = flatWords key (8 + k) := by
    intro k
    induction k with
    | zero =>
      intro _
      show key = flatWords key 8
      exact (flatWords_eight key hk).symm
    | succ k ih =>
      intro hk52
      rw [List.range'_concat, List.foldl_concat, ih (by omega),
        show 8 + 1 * k = 8 + k by omega]
      exact expandStep_flat key hk (8 + k) (by omega)
  exact main 52 (by omega)

theorem expand_key_length (key : List Nat) (hk : key.length = 32) :
    (expand_key key).length = 240 := by
  rw [expand_key_eq_flatWords key hk, flatWords_length key hk]

/-! ### Padding, construction and known-answer theorems -/

deriving instance DecidableEq for Except

theorem getLast?_pad (x : List Nat) (n : Nat) (hn : 1 ≤ n) :
    (x ++ List.replicate n n).getLast? = some n := by
  obtain ⟨m, hm⟩ : ∃ m, n = m + 1 := ⟨n - 1, by omega⟩
  rw [hm, List.replicate_succ', ← List.append_assoc, List.getLast?_concat]

theorem unpad_eq_of_getLast? (data : List Nat) (n : Nat) (h : data.getLast? = some n) :
    unpad data =
      if 16 < n ∨ ¬ (pySliceLast data n).all (· == n) then
        Except.error AESError.invalidPadding
      else Except.ok (pyDropLast data n) := by
  unfold unpad
  rw [h]

/-- C4: `unpad (pad x) = x` for every byte buffer `x`. -/
theorem unpad_pad_id (x : List Nat) : unpad (pad x) = Except.ok x := by
  show unpad (x ++ List.replicate (16 - x.length % 16) (16 - x.length % 16)) = Except.ok x
  have hnb : 1 ≤ 16 - x.length % 16 ∧ 16 - x.length % 16 ≤ 16 := by omega
  set n := 16 - x.length % 16 with hn
  have hlast := getLast?_pad x n hnb.1
  have hslice : pySliceLast (x ++ List.replicate n n) n = List.replicate n n := by
    unfold pySliceLast
    rw [if_neg (by omega : ¬ n = 0), List.length_append, List.length_replicate,
      Nat.add_sub_cancel]
    exact List.drop_left x _
  have hall : (List.replicate n n).all (· == n) = true := by
    rw [List.all_eq_true]
    intro p hp
    rw [List.eq_of_mem_replicate hp]
    exact beq_self_eq_true n
  have hdrop : pyDropLast (x ++ List.replicate n n) n = x := by
    unfold pyDropLast
    rw [if_neg (by omega : ¬ n = 0), List.length_append, List.length_replicate,
      Nat.add_sub_cancel]
    exact List.take_left x _
  rw [unpad_eq_of_getLast? _ n hlast, hslice, hall, hdrop, if_neg (by simp; omega)]

/-- C5, counterexample: on `[1, 0]` the declared padding length is `n = 0`;
none of the "last 0 bytes" differs from `n` and `n ≤ 16`, yet `unpad`
raises invalid padding. -/
theorem unpad_zero_declared_cex :
    unpad [1, 0] = Except.error AESError.invalidPadding ∧
    ¬ (16 : Nat) < 0 ∧
    (([1, 0] : List Nat).drop (([1, 0] : List Nat).length - 0)).all (· == 0) = true := by
  decide

/-- C5 (amended to declared padding length `n ≥ 1`): `unpad` fails with
invalid padding iff `n > 16` or one of the last `n` bytes differs from `n`,
and on success it returns the buffer with the last `n` bytes removed. -/
theorem unpad_failure_contract (data : List Nat) (n : Nat)
    (hl : data.getLast? = some n) (h1 : 1 ≤ n) :
    (unpad data = Except.error AESError.invalidPadding ↔
      16 < n ∨ ∃ b ∈ data.drop (data.length - n), b ≠ n) ∧
    ∀ r, unpad data = Except.ok r → r = data.take (data.length - n) := by
  have hslice : pySliceLast data n = data.drop (data.length - n) := by
    unfold pySliceLast
    rw [if_neg (by omega : ¬ n = 0)]
  have hdrop : pyDropLast data n = data.take (data.length - n) := by
    unfold pyDropLast
    rw [if_neg (by omega : ¬ n = 0)]
  have hu : unpad data =
      if 16 < n ∨ ¬ (data.drop (data.length - n)).all (· == n) then
        Except.error AESError.invalidPadding
      else Except.ok (data.take (data.length - n)) := by
    rw [unpad_eq_of_getLast? data n hl, hslice, hdrop]
  have hex : (¬ (data.drop (data.length - n)).all (· == n) = true) ↔
      ∃ b ∈ data.drop (data.length - n), b ≠ n := by
    simp [List.all_eq_true]
  constructor
  · by_cases hc : 16 < n ∨ ¬ (data.drop (data.length - n)).all (· == n)
    · rw [hu, if_pos hc]
      refine ⟨fun _ => ?_, fun _ => rfl⟩
      rcases hc with h | h
      · exact Or.inl h
      · exact Or.inr (hex.mp h)
    · rw [hu, if_neg hc]
      refine ⟨fun h => Except.noConfusion h, fun h => ?_⟩
      exfalso
      apply hc
      rcases h with h | h
      · exact Or.inl h
      · exact Or.inr (hex.mpr h)
  · intro r hr
    rw [hu] at hr
    by_cases hc : 16 < n ∨ ¬ (data.drop (data.length - n)).all (· == n)
    · rw [if_pos hc] at hr
      exact Except.noConfusion hr
    · rw [if_neg hc] at hr
      injection hr with h2
      exact h2.symm

theorem unpad_failure_contract_app :
    ([5, 5, 5, 4] : List Nat).getLast? = some 4 ∧ (1 : Nat) ≤ 4 ∧
    ((unpad [5, 5, 5, 4] = Except.error AESError.invalidPadding ↔
        16 < 4 ∨ ∃ b ∈ ([5, 5, 5, 4] : List Nat).drop (([5, 5, 5, 4] : List Nat).length - 4),
          b ≠ 4) ∧
      ∀ r, unpad [5, 5, 5, 4] = Except.ok r →
        r = ([5, 5, 5, 4] : List Nat).take (([5, 5, 5, 4] : List Nat).length - 4)) :=
  ⟨by decide, by decide, unpad_failure_contract [5, 5, 5, 4] 4 (by decide) (by decide)⟩

/-- C7: a key of any length other than 32 bytes is rejected at construction
with the invalid-key-length error. -/
theorem invalid_key_length_rejected (key : List Nat) (h : key.length ≠ 32) :
    mkAES key = Except.error AESError.invalidKeyLength := by
  unfold mkAES
  rw [if_neg h]

theorem invalid_key_length_rejected_app :
    ((List.replicate 31 0 : List Nat).length ≠ 32 ∧
      mkAES (List.replicate 31 0) = Except.error AESError.invalidKeyLength) ∧
    ((List.replicate 33 0 : List Nat).length ≠ 32 ∧
      mkAES (List.replicate 33 0) = Except.error AESError.invalidKeyLength) :=
  ⟨⟨by decide, invalid_key_length_rejected _ (by decide)⟩,
   ⟨by decide, invalid_key_length_rejected _ (by decide)⟩⟩

/-- C10: when the last byte is `0x00`, `unpad` checks the whole buffer
against `0`: it raises invalid padding unless every byte is zero, and in the
all-zero case it returns the empty buffer, never the buffer unchanged. -/
theorem unpad_trailing_zero (data : List Nat) (h : data.getLast? = some 0) :
    (¬ data.all (· == 0) = true → unpad data = Except.error AESError.invalidPadding) ∧
    (data.all (· == 0) = true → unpad data = Except.ok []) ∧
    unpad data ≠ Except.ok data := by
  have hne : data ≠ [] := by
    intro h0
    subst h0
    simp at h
  have hslice : pySliceLast data 0 = data := by
    unfold pySliceLast
    rw [if_pos rfl]
  have hdrop : pyDropLast data 0 = [] := by
    unfold pyDropLast
    rw [if_pos rfl]
  have hu : unpad data =
      if 16 < 0 ∨ ¬ data.all (· == 0) then Except.error AESError.invalidPadding
      else Except.ok [] := by
    rw [unpad_eq_of_getLast? data 0 h, hslice, hdrop]
  refine ⟨?_, ?_, ?_⟩
  · intro hall
    rw [hu, if_pos (Or.inr hall)]
  · intro hall
    rw [hu, if_neg (by simp [hall])]
  · intro hc
    rw [hu] at hc
    by_cases hall : data.all (· == 0) = true
    · rw [if_neg (by simp [hall])] at hc
      injection hc with h2
      exact hne h2.symm
    · rw [if_pos (Or.inr hall)] at hc
      exact Except.noConfusion hc

theorem unpad_trailing_zero_app :
    ([0, 0] : List Nat).getLast? = some 0 ∧
    ((¬ ([0, 0] : List Nat).all (· == 0) = true →
        unpad [0, 0] = Except.error AESError.invalidPadding) ∧
      (([0, 0] : List Nat).all (· == 0) = true → unpad [0, 0] = Except.ok []) ∧
      unpad [0, 0] ≠ Except.ok [0, 0]) :=
  ⟨by decide, unpad_trailing_zero [0, 0] (by decide)⟩

/-- C1, counterexample: the key hex stated for the known-answer test has
only 31 bytes, so the engine cannot even be constructed with it. -/
theorem kat_key31_rejected :
    keyKAT31.length = 31 ∧ mkAES keyKAT31 = Except.error AESError.invalidKeyLength := by
  constructor
  · rfl
  · decide

set_option maxRecDepth 10000 in
/-- C1 (amended to the full 32-byte FIPS-197 key `000102…1f`): the engine
built from that key encrypts the FIPS plaintext block to the stated
ciphertext `8ea2b7ca516745bfeafc49904b496089`. -/
theorem kat_fips_encrypts :
    ∃ a, mkAES keyFIPS = Except.ok a ∧ a.encrypt ptFIPS = Except.ok ctFIPS := by
  refine ⟨⟨keyFIPS, 14, 16, expand_key keyFIPS⟩, by rfl, by decide⟩

/-! ### Block-transform structure theorems -/

theorem shift_rows_eq_descr (s : List Nat) : shift_rows s = shiftRowsDescr s := rfl

theorem shiftRowsDescr_length (s : List Nat) : (shiftRowsDescr s).length = 16 := rfl

theorem mix_columns_length (s : List Nat) : (mix_columns s).length = 16 := rfl

theorem mix_columns_eq_descr (s : List Nat) (h : s.length = 16) :
    mix_columns s = mixColumnsDescr s := by
  rcases s with _ | ⟨a0, s⟩
  · exfalso; simp only [List.length_nil] at h; omega
  rcases s with _ | ⟨a1, s⟩
  · exfalso; simp only [List.length_cons, List.length_nil] at h; omega
  rcases s with _ | ⟨a2, s⟩
  · exfalso; simp only [List.length_cons, List.length_nil] at h; omega
  rcases s with _ | ⟨a3, s⟩
  · exfalso; simp only [List.length_cons, List.length_nil] at h; omega
  rcases s with _ | ⟨a4, s⟩
  · exfalso; simp only [List.length_cons, List.length_nil] at h; omega
  rcases s with _ | ⟨a5, s⟩
  · exfalso; simp only [List.length_cons, List.length_nil] at h; omega
  rcases s with _ | ⟨a6, s⟩
  · exfalso; simp only [List.length_cons, List.length_nil] at h; omega
  rcases s with _ | ⟨a7, s⟩
  · exfalso; simp only [List.length_cons, List.length_nil] at h; omega
  rcases s with _ | ⟨a8, s⟩
  · exfalso; simp only [List.length_cons, List.length_nil] at h; omega
  rcases s with _ | ⟨a9, s⟩
  · exfalso; simp only [List.length_cons, List.length_nil] at h; omega
  rcases s with _ | ⟨a10, s⟩
  · exfalso; simp only [List.length_cons, List.length_nil] at h; omega
  rcases s with _ | ⟨a11, s⟩
  · exfalso; simp only [List.length_cons, List.length_nil] at h; omega
  rcases s with _ | ⟨a12, s⟩
  · exfalso; simp only [List.length_cons, List.length_nil] at h; omega
  rcases s with _ | ⟨a13, s⟩
  · exfalso; simp only [List.length_cons, List.length_nil] at h; omega
  rcases s with _ | ⟨a14, s⟩
  · exfalso; simp only [List.length_cons, List.length_nil] at h; omega
  rcases s with _ | ⟨a15, s⟩
  · exfalso; simp only [List.length_cons, List.length_nil] at h; omega
  rcases s with _ | ⟨a16, s⟩
  · rfl
  · exfalso; simp only [List.length_cons, List.length_nil] at h; omega

theorem roundStep_length (ks s : List Nat) (r : Nat) (hks : ks.length = 240) (hr : r ≤ 14) :
    (roundStep ks s r).length = 16 := by
  unfold roundStep add_round_key
  rw [zipXor_length, mix_columns_length, List.length_take, List.length_drop, hks]
  omega

theorem roundStep_eq_descr (ks s : List Nat) (r : Nat) :
    roundStep ks s r =
      add_round_key (mixColumnsDescr (shiftRowsDescr (sub_bytes s)))
        ((ks.drop (r * 16)).take 16) := by
  unfold roundStep
  rw [shift_rows_eq_descr,
    mix_columns_eq_descr _ (shiftRowsDescr_length (sub_bytes s))]

theorem foldl_roundStep_eq_descr (ks : List Nat) :
    ∀ rs s : List Nat,
      rs.foldl (roundStep ks) s =
        rs.foldl
          (fun s r =>
            add_round_key (mixColumnsDescr (shiftRowsDescr (sub_bytes s)))
              ((ks.drop (r * 16)).take 16)) s := by
  intro rs
  induction rs with
  | nil => intro s; rfl
  | cons r rest ih =>
    intro s
    show rest.foldl (roundStep ks) (roundStep ks s r) = rest.foldl _ _
    rw [ih, roundStep_eq_descr]

/-- C2: on every 16-byte block and every 32-byte key, the block transform is
AddRoundKey with schedule bytes 0–15, then for rounds 1..13 SubBytes,
ShiftRows (each row `r` of the column-major state rotated left by `r`),
MixColumns (the documented column formula over GF(2^8)), AddRoundKey with
that round's slice, and finally SubBytes, ShiftRows and AddRoundKey with
schedule bytes 224–239 — with no MixColumns in the last round. -/
theorem encrypt_round_structure (key pt : List Nat) (hk : key.length = 32)
    (hpt : pt.length = 16) :
    encryptBlock (expand_key key) pt =
      add_round_key
        (shiftRowsDescr (sub_bytes
          ((List.range' 1 13).foldl
            (fun s r =>
              add_round_key (mixColumnsDescr (shiftRowsDescr (sub_bytes s)))
                (((expand_key key).drop (r * 16)).take 16))
            (add_round_key pt ((expand_key key).take 16)))))
        (((expand_key key).drop 224).take 16) := by
  show add_round_key
      (shift_rows (sub_bytes
        ((List.range' 1 13).foldl (roundStep (expand_key key))
          (add_round_key pt ((expand_key key).take 16)))))
      (((expand_key key).drop (14 * 16)).take 16) = _
  rw [foldl_roundStep_eq_descr (expand_key key) (List.range' 1 13) _,
    shift_rows_eq_descr]

theorem encrypt_round_structure_app :
    keyFIPS.length = 32 ∧ ptFIPS.length = 16 ∧
    encryptBlock (expand_key keyFIPS) ptFIPS =
      add_round_key
        (shiftRowsDescr (sub_bytes
          ((List.range' 1 13).foldl
            (fun s r =>
              add_round_key (mixColumnsDescr (shiftRowsDescr (sub_bytes s)))
                (((expand_key keyFIPS).drop (r * 16)).take 16))
            (add_round_key ptFIPS ((expand_key keyFIPS).take 16)))))
        (((expand_key keyFIPS).drop 224).take 16) :=
  ⟨by decide, by decide, encrypt_round_structure keyFIPS ptFIPS (by decide) (by decide)⟩

/-! ### Message codec theorems -/

theorem shift_rows_length (s : List Nat) : (shift_rows s).length = 16 := rfl

theorem encryptBlock_length (ks pt : List Nat) (hks : ks.length = 240) :
    (encryptBlock ks pt).length = 16 := by
  show (add_round_key (shift_rows (sub_bytes _)) ((ks.drop (14 * 16)).take 16)).length = 16
  unfold add_round_key
  rw [zipXor_length, shift_rows_length, List.length_take, List.length_drop, hks]
  omega

theorem pad_length (data : List Nat) :
    (pad data).length = data.length + (16 - data.length % 16) := by
  show (data ++ _).length = _
  rw [List.length_append, List.length_replicate]

theorem pad_length_mod (data : List Nat) : (pad data).length % 16 = 0 := by
  rw [pad_length]
  omega

theorem chunksEncrypt_step (a : AES256) (data : List Nat) (h16 : 16 ≤ data.length) :
    chunksEncrypt a data =
      match chunksEncrypt a (data.drop 16) with
      | Except.error e => Except.error e
      | Except.ok rest => Except.ok (encryptBlock a.key_schedule (data.take 16) ++ rest) := by
  have hne : data ≠ [] := by
    intro h0
    subst h0
    simp at h16
  have henc : a.encrypt (data.take 16) =
      Except.ok (encryptBlock a.key_schedule (data.take 16)) := by
    unfold AES256.encrypt
    rw [if_pos (by rw [List.length_take]; omega)]
  conv_lhs => unfold chunksEncrypt
  rw [dif_neg hne, henc]

theorem chunksEncrypt_spec (a : AES256) (hks : a.key_schedule.length = 240) :
    ∀ N data, data.length ≤ N → data.length % 16 = 0 →
      ∃ out, chunksEncrypt a data = Except.ok out ∧ out.length = data.length ∧
        ∀ k, 16 * k < data.length →
          sliceBlock out k = encryptBlock a.key_schedule (sliceBlock data k) := by
  intro N
  induction N with
  | zero =>
    intro data hlen _
    have h0 : data = [] := by
      cases data with
      | nil => rfl
      | cons x t => simp at hlen
    subst h0
    refine ⟨[], ?_, rfl, ?_⟩
    · unfold chunksEncrypt
      rw [dif_pos rfl]
    · intro k hk
      simp at hk
  | succ N ih =>
    intro data hlen hmod
    by_cases hnil : data = []
    · subst hnil
      refine ⟨[], ?_, rfl, ?_⟩
      · unfold chunksEncrypt
        rw [dif_pos rfl]
      · intro k hk
        simp at hk
    · have hpos : 0 < data.length := List.length_pos.mpr hnil
      have h16 : 16 ≤ data.length := by omega
      obtain ⟨rest, hrest, hrlen, hrblocks⟩ := ih (data.drop 16)
        (by rw [List.length_drop]; omega) (by rw [List.length_drop]; omega)
      refine ⟨encryptBlock a.key_schedule (data.take 16) ++ rest, ?_, ?_, ?_⟩
      · rw [chunksEncrypt_step a data h16, hrest]
      · rw [List.length_append, encryptBlock_length _ _ hks, hrlen, List.length_drop]
        omega
      · intro k hk
        cases k with
        | zero =>
          show ((encryptBlock a.key_schedule (data.take 16) ++ rest).take 16) =
            encryptBlock a.key_schedule (data.take 16)
          rw [List.take_left' (encryptBlock_length _ _ hks)]
        | succ k =>
          have hd1 : (encryptBlock a.key_schedule (data.take 16) ++ rest).drop (16 * (k + 1))
              = rest.drop (16 * k) := by
            rw [show 16 * (k + 1) = 16 + 16 * k by ring, ← List.drop_drop,
              List.drop_left' (encryptBlock_length _ _ hks)]
          show ((encryptBlock a.key_schedule (data.take 16) ++ rest).drop (16 * (k + 1))).take 16
            = encryptBlock a.key_schedule (sliceBlock data (k + 1))
          rw [hd1]
          show sliceBlock rest k = encryptBlock a.key_schedule (sliceBlock data (k + 1))
          rw [hrblocks k (by rw [List.length_drop]; omega)]
          congr 1
          show ((data.drop 16).drop (16 * k)).take 16 = (data.drop (16 * (k + 1))).take 16
          rw [List.drop_drop, show 16 + 16 * k = 16 * (k + 1) by ring]

theorem mkAES_ok (key : List Nat) (hk : key.length = 32) (a : AES256)
    (ha : mkAES key = Except.ok a) : a = ⟨key, 14, 16, expand_key key⟩ := by
  unfold mkAES at ha
  rw [if_pos hk] at ha
  injection ha with h2
  exact h2.symm

/-- C6: `pad` appends exactly `n = 16 - len % 16` bytes each equal to `n`
(a full 16-byte block when the length is already a multiple of 16), so `n`
is between 1 and 16 and the padded length is a multiple of 16; consequently
whole-message encryption of 0-, 15- and 16-byte inputs yields 16, 16 and 32
ciphertext bytes. -/
theorem pad_contract (key data : List Nat) (hk : key.length = 32) :
    pad data = data ++ List.replicate (16 - data.length % 16) (16 - data.length % 16) ∧
    (data.length % 16 = 0 → pad data = data ++ List.replicate 16 16) ∧
    1 ≤ 16 - data.length % 16 ∧ 16 - data.length % 16 ≤ 16 ∧
    (pad data).length % 16 = 0 ∧
    ∀ a, mkAES key = Except.ok a →
      (data.length = 0 → ∃ out, a.encrypt_full data = Except.ok out ∧ out.length = 16) ∧
      (data.length = 15 → ∃ out, a.encrypt_full data = Except.ok out ∧ out.length = 16) ∧
      (data.length = 16 → ∃ out, a.encrypt_full data = Except.ok out ∧ out.length = 32) := by
  refine ⟨rfl, ?_, by omega, by omega, pad_length_mod data, ?_⟩
  · intro h0
    show data ++ List.replicate (16 - data.length % 16) (16 - data.length % 16) = _
    rw [h0]
  · intro a ha
    have hks : a.key_schedule.length = 240 := by
      rw [mkAES_ok key hk a ha]
      exact expand_key_length key hk
    obtain ⟨out, hout, hlen', _⟩ := chunksEncrypt_spec a hks (pad data).length (pad data)
      le_rfl (pad_length_mod data)
    refine ⟨fun h0 => ⟨out, hout, ?_⟩, fun h0 => ⟨out, hout, ?_⟩, fun h0 => ⟨out, hout, ?_⟩⟩ <;>
      rw [hlen', pad_length, h0]

/-- C8: single-block encryption is deterministic in the key and block, and
whole-message encryption chains nothing between blocks: equal 16-byte
plaintext blocks of the padded message give equal ciphertext blocks. -/
theorem encrypt_deterministic_ecb (key pt : List Nat) (hk : key.length = 32) :
    (∀ P : List Nat, P.length = 16 →
      encryptBlock (expand_key key) P = encryptBlock (expand_key key) P) ∧
    ∀ a, mkAES key = Except.ok a →
      ∃ out, a.encrypt_full pt = Except.ok out ∧
        ∀ i j, 16 * i < (pad pt).length → 16 * j < (pad pt).length →
          sliceBlock (pad pt) i = sliceBlock (pad pt) j →
          sliceBlock out i = sliceBlock out j := by
  refine ⟨fun P _ => rfl, ?_⟩
  intro a ha
  have hks : a.key_schedule.length = 240 := by
    rw [mkAES_ok key hk a ha]
    exact expand_key_length key hk
  obtain ⟨out, hout, _, hblocks⟩ := chunksEncrypt_spec a hks (pad pt).length (pad pt)
    le_rfl (pad_length_mod pt)
  refine ⟨out, hout, ?_⟩
  intro i j hi hj hij
  rw [hblocks i hi, hblocks j hj, hij]

/-! ### Key-schedule recurrence and remaining witnesses -/

/-- C3: for every accepted 32-byte key the schedule is exactly 240 bytes,
words 0–7 are the raw key bytes, and every word `i` from 8 to 59 equals
`word (i-8) XOR temp` with `temp` derived from `word (i-1)` by
`SubWord (RotWord ·) XOR (Rcon[i/8],0,0,0)` when `i % 8 = 0`, by `SubWord`
alone when `i % 8 = 4`, and unchanged otherwise, with
`Rcon[1..10] = {01,02,04,08,10,20,40,80,1B,36}`. -/
theorem key_schedule_recurrence (key : List Nat) (hk : key.length = 32) :
    (expand_key key).length = 240 ∧
    (expand_key key).take 32 = key ∧
    RCON.drop 1 = [0x01, 0x02, 0x04, 0x08, 0x10, 0x20, 0x40, 0x80, 0x1b, 0x36] ∧
    ∀ i, 8 ≤ i → i < 60 →
      sliceWord (expand_key key) i =
        zipXor (sliceWord (expand_key key) (i - 8))
          (if i % 8 = 0 then
            zipXor (subWord (rotWord (sliceWord (expand_key key) (i - 1))))
              [RCON.getD (i / 8) 0, 0, 0, 0]
          else if i % 8 = 4 then subWord (sliceWord (expand_key key) (i - 1))
          else sliceWord (expand_key key) (i - 1)) := by
  have he := expand_key_eq_flatWords key hk
  refine ⟨expand_key_length key hk, ?_, rfl, ?_⟩
  · rw [he, show (32 : Nat) = 4 * 8 by norm_num, flatWords_take key hk 60 8 (by omega)]
    exact flatWords_eight key hk
  · intro i h8 h60
    rw [he, flatWords_word key hk 60 i h60, flatWords_word key hk 60 (i - 8) (by omega),
      flatWords_word key hk 60 (i - 1) (by omega)]
    exact wordSpec_ge8 key i h8

theorem key_schedule_recurrence_app :
    keyFIPS.length = 32 ∧
    ((expand_key keyFIPS).length = 240 ∧
      (expand_key keyFIPS).take 32 = keyFIPS ∧
      RCON.drop 1 = [0x01, 0x02, 0x04, 0x08, 0x10, 0x20, 0x40, 0x80, 0x1b, 0x36] ∧
      ∀ i, 8 ≤ i → i < 60 →
        sliceWord (expand_key keyFIPS) i =
          zipXor (sliceWord (expand_key keyFIPS) (i - 8))
            (if i % 8 = 0 then
              zipXor (subWord (rotWord (sliceWord (expand_key keyFIPS) (i - 1))))
                [RCON.getD (i / 8) 0, 0, 0, 0]
            else if i % 8 = 4 then subWord (sliceWord (expand_key keyFIPS) (i - 1))
            else sliceWord (expand_key keyFIPS) (i - 1))) :=
  ⟨by decide, key_schedule_recurrence keyFIPS (by decide)⟩

theorem pad_contract_app :
    keyFIPS.length = 32 ∧
    (pad ([] : List Nat) =
        [] ++ List.replicate (16 - ([] : List Nat).length % 16)
          (16 - ([] : List Nat).length % 16) ∧
      (([] : List Nat).length % 16 = 0 → pad ([] : List Nat) = [] ++ List.replicate 16 16) ∧
      1 ≤ 16 - ([] : List Nat).length % 16 ∧ 16 - ([] : List Nat).length % 16 ≤ 16 ∧
      (pad ([] : List Nat)).length % 16 = 0 ∧
      ∀ a, mkAES keyFIPS = Except.ok a →
        (([] : List Nat).length = 0 →
          ∃ out, a.encrypt_full [] = Except.ok out ∧ out.length = 16) ∧
        (([] : List Nat).length = 15 →
          ∃ out, a.encrypt_full [] = Except.ok out ∧ out.length = 16) ∧
        (([] : List Nat).length = 16 →
          ∃ out, a.encrypt_full [] = Except.ok out ∧ out.length = 32)) :=
  ⟨by decide, pad_contract keyFIPS [] (by decide)⟩

theorem encrypt_deterministic_ecb_app :
    keyFIPS.length = 32 ∧
    ((∀ P : List Nat, P.length = 16 →
        encryptBlock (expand_key keyFIPS) P = encryptBlock (expand_key keyFIPS) P) ∧
      ∀ a, mkAES keyFIPS = Except.ok a →
        ∃ out, a.encrypt_full [] = Except.ok out ∧
          ∀ i j, 16 * i < (pad ([] : List Nat)).length →
            16 * j < (pad ([] : List Nat)).length →
            sliceBlock (pad ([] : List Nat)) i = sliceBlock (pad ([] : List Nat)) j →
            sliceBlock out i = sliceBlock out j) :=
  ⟨by decide, encrypt_deterministic_ecb keyFIPS [] (by decide)⟩

theorem gf_mult_untruncated_matches_app :
    (0x57 : Nat) < 256 ∧ (0x83 : Nat) < 256 ∧ gf_mult 0x57 0x83 = gf_mult_ref 0x57 0x83 :=
  ⟨by decide, by decide, gf_mult_untruncated_matches 0x57 0x83 (by decide) (by decide)⟩

end AES256V
